import Mathlib

/-!
Verification of the collaborative canvas-state synchronization engine:
the layer model, the bounded undo/redo history and the real-time relay of
the design editor.  The definitions below are a shallow embedding of

  * `src/frontend/src/types/index.ts` (the `Layer` data model),
  * `src/frontend/src/store/designSlice.ts` (the reducers of the design
    slice: local layer operations, the inlined history block, undo/redo and
    the remote-reconciliation variants),
  * the `design-update` handler of `src/backend/src/socket/handlers.ts`
    (the server-side update relay), and
  * the `handleRemoteUpdate` dispatcher of the editor page (remote
    reconciler with self-echo suppression).

JavaScript numbers are modelled as `Int` (no fractional arithmetic is
performed by any embedded operation), strings as `String`, optional fields
as `Option`, and the mutable Redux state as explicit state passing.  Fields
of the design slice that no embedded operation reads or writes in an
interesting way (`currentDesign`, `isLoading`, `error`) are omitted; every
embedded reducer leaves them untouched in the source.
-/

namespace CanvasSync

/-- Payload of a text layer (`types/index.ts`). -/
structure TextProps where
  content : String
  fontFamily : String
  fontSize : Int
  color : String
deriving DecidableEq, Repr, Inhabited

/-- Payload of an image layer (`types/index.ts`). -/
structure ImageProps where
  url : String
  opacity : Option Int
deriving DecidableEq, Repr, Inhabited

/-- Shape variants (`types/index.ts`). -/
inductive ShapeKind where
  | rectangle
  | circle
deriving DecidableEq, Repr, Inhabited

/-- Payload of a shape layer (`types/index.ts`). -/
structure ShapeProps where
  shapeKind : ShapeKind
  fill : String
  stroke : Option String
  strokeWidth : Option Int
deriving DecidableEq, Repr, Inhabited

/-- The three layer kinds (`LayerType` in `types/index.ts`). -/
inductive LayerKind where
  | text
  | image
  | shape
deriving DecidableEq, Repr, Inhabited

/-- A 2-d point (`position` field). -/
structure Point where
  x : Int
  y : Int
deriving DecidableEq, Repr, Inhabited

/-- Width and height (`dimensions` field). -/
structure Dimensions where
  width : Int
  height : Int
deriving DecidableEq, Repr, Inhabited

/-- One visual layer, after `interface Layer` of `types/index.ts`. -/
structure Layer where
  id : String
  kind : LayerKind
  name : String
  zIndex : Int
  visible : Bool
  locked : Bool
  position : Point
  dimensions : Dimensions
  rotation : Int
  text : Option TextProps
  image : Option ImageProps
  shape : Option ShapeProps
deriving DecidableEq, Repr, Inhabited

/-- One history entry (`HistoryState` of the frontend): a snapshot of the
canvas layers together with the selection at the time of recording. -/
structure HistoryState where
  layers : List Layer
  selectedLayerId : Option String
deriving DecidableEq, Repr, Inhabited

/-- The design slice state (`interface DesignState` in `designSlice.ts`),
restricted to the fields the collaborative core reads or writes:
`layers`, `selectedLayerId`, `history` and `historyIndex`.  The index is an
`Int` because the source initialises it to `-1`. -/
structure DesignState where
  layers : List Layer
  selectedLayerId : Option String
  history : List HistoryState
  historyIndex : Int
deriving DecidableEq, Repr, Inhabited

/-- `initialState` of `designSlice.ts` (restricted to the embedded fields). -/
def initialState : DesignState :=
  { layers := [], selectedLayerId := none, history := [], historyIndex := -1 }

/-- `const MAX_HISTORY = 20` (`designSlice.ts`, line 25). -/
def MAX_HISTORY : Nat := 20

/-- Position that the element at index `i` of `zs` occupies after a stable
ascending sort of `zs`: all strictly smaller values precede it, and among
equal values the original relative order is kept, so exactly the equal
values at earlier positions precede it. -/
def stableRank (zs : List Int) (i : Nat) : Nat :=
  zs.countP (fun w => decide (w < zs.getD i 0)) +
    (zs.take i).countP (fun w => decide (w = zs.getD i 0))

/-- The zIndex normalization block repeated in `addLayer`, `deleteLayer`,
`reorderLayer`, `remoteAddLayer` and `remoteDeleteLayer`:

    const sortedLayers = [...state.layers].sort((a, b) => a.zIndex - b.zIndex);
    sortedLayers.forEach((layer, idx) => \x7b layer.zIndex = idx; \x7d);

The sorted copy aliases the layer objects, so each layer keeps its array
position and receives as new `zIndex` its position in the stable ascending
sort of the old `zIndex` values (JavaScript `Array.prototype.sort` is
stable). -/
def normalizeZ (ls : List Layer) : List Layer :=
  let zs := ls.map Layer.zIndex
  ls.enum.map fun p => { p.2 with zIndex := (stableRank zs p.1 : Int) }

/-- The history-recording block that every local reducer of `designSlice.ts`
repeats verbatim (for example lines 68-81 inside `addLayer`):

    state.history = state.history.slice(0, state.historyIndex + 1);
    state.history.push(newHistoryState);
    if (state.history.length > MAX_HISTORY) \x7b state.history.shift(); \x7d
    else \x7b state.historyIndex++; \x7d

`slice(0, k)` is `take k`; the cursor is at least `-1` in every reachable
state, so the slice bound `historyIndex + 1` is never negative. -/
def recordSnapshot (s : DesignState) : DesignState :=
  let snap : HistoryState := { layers := s.layers, selectedLayerId := s.selectedLayerId }
  let hist := s.history.take (s.historyIndex + 1).toNat ++ [snap]
  if MAX_HISTORY < hist.length then
    { s with history := hist.drop 1 }
  else
    { s with history := hist, historyIndex := s.historyIndex + 1 }

/-- The ascending comparator `(a, b) => a.zIndex - b.zIndex` used by the
final re-sort of `reorderLayer`. -/
def zLe (a b : Layer) : Bool :=
  decide (a.zIndex ≤ b.zIndex)

/-- `addLayer` reducer (`designSlice.ts` lines 59-82): push the payload,
normalize zIndex, record a history snapshot.  There is no duplicate-id
check in the source. -/
def addLayer (l : Layer) (s : DesignState) : DesignState :=
  recordSnapshot { s with layers := normalizeZ (s.layers ++ [l]) }

/-- `updateLayer` reducer (lines 84-101): replace the first layer whose id
matches the payload id and record a snapshot; if no layer matches, the
state is returned unchanged (no normalization, no history entry). -/
def updateLayer (l : Layer) (s : DesignState) : DesignState :=
  match s.layers.findIdx? (fun m => decide (m.id = l.id)) with
  | some i => recordSnapshot { s with layers := s.layers.set i l }
  | none => s

/-- `deleteLayer` reducer (lines 103-127): drop every layer with the given
id, clear the selection if it pointed at that id, normalize zIndex and
record a snapshot (the snapshot is recorded even when no layer matched). -/
def deleteLayer (lid : String) (s : DesignState) : DesignState :=
  let ls := s.layers.filter (fun m => decide (m.id ≠ lid))
  let sel := if s.selectedLayerId = some lid then none else s.selectedLayerId
  recordSnapshot { s with layers := normalizeZ ls, selectedLayerId := sel }

/-- The two reorder directions of the `reorderLayer` payload. -/
inductive Direction where
  | forward
  | backward
deriving DecidableEq, Repr, Inhabited

/-- `reorderLayer` reducer (lines 129-184): normalize zIndex first (this
mutation persists in every branch), locate the first layer with the given
id (early return when absent, with no history entry), swap its zIndex with
the first layer holding the adjacent zIndex unless already at the boundary,
re-sort the array by zIndex and record a snapshot. -/
def reorderLayer (lid : String) (dir : Direction) (s : DesignState) : DesignState :=
  let ls := normalizeZ s.layers
  match ls.findIdx? (fun m => decide (m.id = lid)) with
  | none => { s with layers := ls }
  | some i =>
    let c := (ls.getD i default).zIndex
    let maxZ : Int := (ls.length : Int) - 1
    let ls2 :=
      match dir with
      | Direction.forward =>
        if c < maxZ then
          match ls.findIdx? (fun m : Layer => decide (m.zIndex = c + 1)) with
          | some j =>
            (ls.set i { ls.getD i default with zIndex := c + 1 }).set j
              { ls.getD j default with zIndex := c }
          | none => ls
        else ls
      | Direction.backward =>
        if 0 < c then
          match ls.findIdx? (fun m : Layer => decide (m.zIndex = c - 1)) with
          | some j =>
            (ls.set i { ls.getD i default with zIndex := c - 1 }).set j
              { ls.getD j default with zIndex := c }
          | none => ls
        else ls
    recordSnapshot { s with layers := ls2.mergeSort zLe }

/-- `renameLayer` reducer (lines 186-205): rename the first layer with the
given id to the trimmed new name and record a snapshot, provided the layer
exists and the trimmed name is non-empty; otherwise the state is unchanged. -/
def renameLayer (lid newName : String) (s : DesignState) : DesignState :=
  match s.layers.findIdx? (fun m => decide (m.id = lid)) with
  | some i =>
    if newName.trim ≠ "" then
      recordSnapshot
        { s with layers := s.layers.set i { s.layers.getD i default with name := newName.trim } }
    else s
  | none => s

/-- `toggleLayerVisibility` reducer (lines 207-225): flip the `visible`
flag of the first layer with the given id and record a snapshot; unchanged
state when the id is absent. -/
def toggleLayerVisibility (lid : String) (s : DesignState) : DesignState :=
  match s.layers.findIdx? (fun m => decide (m.id = lid)) with
  | some i =>
    let l := s.layers.getD i default
    recordSnapshot { s with layers := s.layers.set i { l with visible := !l.visible } }
  | none => s

/-- `toggleLayerLock` reducer (lines 227-250): flip the `locked` flag of
the first layer with the given id, clear the selection when the layer
became locked while selected, and record a snapshot; unchanged state when
the id is absent. -/
def toggleLayerLock (lid : String) (s : DesignState) : DesignState :=
  match s.layers.findIdx? (fun m => decide (m.id = lid)) with
  | some i =>
    let l := s.layers.getD i default
    let l2 := { l with locked := !l.locked }
    let sel :=
      if l2.locked ∧ s.selectedLayerId = some l2.id then none else s.selectedLayerId
    recordSnapshot { s with layers := s.layers.set i l2, selectedLayerId := sel }
  | none => s

/-- `selectLayer` reducer (lines 252-254): set the selection.  The source
records no history snapshot here. -/
def selectLayer (lid : Option String) (s : DesignState) : DesignState :=
  { s with selectedLayerId := lid }

/-- `undo` reducer (lines 260-267): when the cursor is positive, decrement
it and restore the snapshot it then points at; otherwise do nothing. -/
def undo (s : DesignState) : DesignState :=
  if 0 < s.historyIndex then
    let h := s.history.getD (s.historyIndex - 1).toNat default
    { s with
      historyIndex := s.historyIndex - 1
      layers := h.layers
      selectedLayerId := h.selectedLayerId }
  else s

/-- `redo` reducer (lines 269-276): when the cursor is below the last
position, increment it and restore the snapshot it then points at;
otherwise do nothing. -/
def redo (s : DesignState) : DesignState :=
  if s.historyIndex < (s.history.length : Int) - 1 then
    let h := s.history.getD (s.historyIndex + 1).toNat default
    { s with
      historyIndex := s.historyIndex + 1
      layers := h.layers
      selectedLayerId := h.selectedLayerId }
  else s

/-- `remoteAddLayer` reducer (lines 287-295): push and normalize, with no
history update. -/
def remoteAddLayer (l : Layer) (s : DesignState) : DesignState :=
  { s with layers := normalizeZ (s.layers ++ [l]) }

/-- `remoteUpdateLayer` reducer (lines 297-303): replace the first layer
whose id matches, with no history update. -/
def remoteUpdateLayer (l : Layer) (s : DesignState) : DesignState :=
  match s.layers.findIdx? (fun m => decide (m.id = l.id)) with
  | some i => { s with layers := s.layers.set i l }
  | none => s

/-- `remoteDeleteLayer` reducer (lines 305-316): remove by id, clear a
matching selection, normalize, with no history update. -/
def remoteDeleteLayer (lid : String) (s : DesignState) : DesignState :=
  let ls := s.layers.filter (fun m => decide (m.id ≠ lid))
  let sel := if s.selectedLayerId = some lid then none else s.selectedLayerId
  { s with layers := normalizeZ ls, selectedLayerId := sel }

/-- `remoteUpdateLayers` reducer (lines 340-344): wholesale replacement of
the layer collection, with no history update. -/
def remoteUpdateLayers (ls : List Layer) (s : DesignState) : DesignState :=
  { s with layers := ls }

/-- The five actions of a `design-update` event (`handlers.ts` and the
editor page dispatcher). -/
inductive RemoteAction where
  | add
  | update
  | delete
  | reorder
  | undoRedo
deriving DecidableEq, Repr, Inhabited

/-- A `design-update` event as received by a client: sender id, action and
the optional payload fields. -/
structure DesignUpdateEvent where
  userId : String
  action : RemoteAction
  layerId : Option String
  layer : Option Layer
  layers : Option (List Layer)
deriving DecidableEq, Repr, Inhabited

/-- The `handleRemoteUpdate` callback of the editor page: ignore events
whose sending user id equals the local user id (self-echo suppression),
otherwise dispatch on the action to the corresponding remote reducer
(`add`/`update` apply the given layer, `delete` removes by layer id,
`reorder` and `undo-redo` replace the whole collection).  The direct
canvas-API force-update calls of the source are rendering side effects
with no bearing on the Redux state and are not modelled. -/
def handleRemoteUpdate (localUserId : String) (ev : DesignUpdateEvent)
    (s : DesignState) : DesignState :=
  if ev.userId = localUserId then s
  else
    match ev.action with
    | RemoteAction.add =>
      match ev.layer with
      | some l => remoteAddLayer l s
      | none => s
    | RemoteAction.update =>
      match ev.layer with
      | some l => remoteUpdateLayer l s
      | none => s
    | RemoteAction.delete =>
      match ev.layerId with
      | some lid => remoteDeleteLayer lid s
      | none => s
    | RemoteAction.reorder =>
      match ev.layers with
      | some ls => remoteUpdateLayers ls s
      | none => s
    | RemoteAction.undoRedo =>
      match ev.layers with
      | some ls => remoteUpdateLayers ls s
      | none => s

/-- The body of a `design-update` message sent by a client to the server
(`DesignUpdateData` in `handlers.ts`). -/
structure DesignUpdateData where
  designId : String
  userId : String
  action : RemoteAction
  layerId : Option String
  layer : Option Layer
  layers : Option (List Layer)
deriving DecidableEq, Repr, Inhabited

/-- The object the relay emits to the room (`handlers.ts` lines 98-105):
the five content fields of the incoming event plus a server timestamp. -/
structure RelayedUpdate where
  userId : String
  action : RemoteAction
  layerId : Option String
  layer : Option Layer
  layers : Option (List Layer)
  timestamp : String
deriving DecidableEq, Repr, Inhabited

/-- The `design-update` handler of `handlers.ts` (lines 92-107):
`socket.to` emits to every socket currently in the room except the sender,
so the broadcast is the list of (recipient, payload) pairs for all room
members other than the sending socket, each carrying the same relayed
payload.  `roomMembers` is the membership of the room `design:<designId>`
at the time of the event and `now` the serialised server clock. -/
def designUpdateBroadcast (roomMembers : List String) (sender : String)
    (data : DesignUpdateData) (now : String) : List (String × RelayedUpdate) :=
  (roomMembers.filter (fun m => decide (m ≠ sender))).map fun m =>
    (m, { userId := data.userId
          action := data.action
          layerId := data.layerId
          layer := data.layer
          layers := data.layers
          timestamp := now })

/-! Spec-level predicates used to state the claims. -/

/-- The zIndex values of `ls` are exactly the dense zero-based sequence
0, 1, ..., n-1 with no gaps and no duplicates, n being the number of
layers. -/
def denseZ (ls : List Layer) : Prop :=
  (ls.map Layer.zIndex).Perm ((List.range ls.length).map fun k : Nat => (k : Int))

instance (ls : List Layer) : Decidable (denseZ ls) := by
  unfold denseZ; infer_instance

/-- Well-formedness of the history bookkeeping, true in every reachable
state of the slice: the cursor lies between -1 and the last history
position, and the stack never exceeds its capacity. -/
def Wf (s : DesignState) : Prop :=
  -1 ≤ s.historyIndex ∧ s.historyIndex < (s.history.length : Int) ∧
    s.history.length ≤ MAX_HISTORY

instance (s : DesignState) : Decidable (Wf s) := by
  unfold Wf; infer_instance

/-- The snapshot of the current canvas state, as built by the recording
block. -/
def currSnap (s : DesignState) : HistoryState :=
  { layers := s.layers, selectedLayerId := s.selectedLayerId }

/-- State `t` is state `s` after exactly one history snapshot was pushed:
the stack grew by one up to the capacity window, the cursor sits on the
last entry, and that entry snapshots the canvas of `t`. -/
def PushedOne (s t : DesignState) : Prop :=
  (t.history.length : Int) = min (s.historyIndex + 2) (MAX_HISTORY : Int) ∧
    t.historyIndex = (t.history.length : Int) - 1 ∧
    t.history.getLast? = some (currSnap t)

/-- Recording the canvas state `h`: every local reducer invokes the
history block right after its edit has set the canvas, so the History
Manager transition recordSnapshot(h) of the spec is the recording block
run on a state whose canvas is `h`. -/
def recordState (h : HistoryState) (s : DesignState) : DesignState :=
  recordSnapshot { s with layers := h.layers, selectedLayerId := h.selectedLayerId }

/-! Concrete fixtures for witnesses and counterexamples. -/

/-- A concrete text layer used in witnesses. -/
def mkLayer (i : String) (z : Int) : Layer :=
  { id := i, kind := LayerKind.text, name := "layer", zIndex := z, visible := true,
    locked := false, position := { x := 0, y := 0 },
    dimensions := { width := 100, height := 100 }, rotation := 0,
    text := some { content := "hello", fontFamily := "Arial", fontSize := 16,
                   color := "#000000" },
    image := none, shape := none }

/-- A concrete two-layer state with one recorded snapshot. -/
def exState : DesignState :=
  { layers := [mkLayer "a" 0, mkLayer "b" 1]
    selectedLayerId := none
    history := [{ layers := [mkLayer "a" 0, mkLayer "b" 1], selectedLayerId := none }]
    historyIndex := 0 }

/-- The state after 25 sequential local edits (addLayer calls) starting
from the empty initial state. -/
def edits25 : DesignState :=
  (List.range 25).foldl (fun s i => addLayer (mkLayer (toString i) (i : Int)) s) initialState


/-! History Manager lemmas. -/

lemma recordSnapshot_def (s : DesignState) :
    recordSnapshot s =
      if MAX_HISTORY < (s.history.take (s.historyIndex + 1).toNat ++ [currSnap s]).length then
        { s with history := (s.history.take (s.historyIndex + 1).toNat ++ [currSnap s]).drop 1 }
      else
        { s with
            history := s.history.take (s.historyIndex + 1).toNat ++ [currSnap s]
            historyIndex := s.historyIndex + 1 } := rfl

lemma recordSnapshot_layers (s : DesignState) : (recordSnapshot s).layers = s.layers := by
  rw [recordSnapshot_def]
  split <;> rfl

lemma recordSnapshot_selected (s : DesignState) :
    (recordSnapshot s).selectedLayerId = s.selectedLayerId := by
  rw [recordSnapshot_def]
  split <;> rfl

lemma currSnap_recordSnapshot (s : DesignState) : currSnap (recordSnapshot s) = currSnap s := by
  unfold currSnap
  rw [recordSnapshot_layers, recordSnapshot_selected]

/-- The recording block either evicts the oldest snapshot (exactly when the
cursor sits at the capacity boundary 19) or truncates after the cursor and
appends, advancing the cursor. -/
lemma recordSnapshot_cases (s : DesignState) (hwf : Wf s) :
    (s.historyIndex = 19 ∧
        recordSnapshot s = { s with history := s.history.drop 1 ++ [currSnap s] }) ∨
      (s.historyIndex < 19 ∧
        recordSnapshot s =
          { s with
              history := s.history.take (s.historyIndex + 1).toNat ++ [currSnap s]
              historyIndex := s.historyIndex + 1 }) := by
  obtain ⟨h1, h2, h3⟩ := hwf
  unfold MAX_HISTORY at h3
  rw [recordSnapshot_def]
  by_cases hc : s.historyIndex = 19
  · left
    have hlen : s.history.length = 20 := by omega
    have htake : (s.historyIndex + 1).toNat = 20 := by omega
    have hcond : MAX_HISTORY < (s.history ++ [currSnap s]).length := by
      simp only [List.length_append, List.length_cons, List.length_nil, MAX_HISTORY]
      omega
    rw [htake, List.take_of_length_le (by omega), if_pos hcond,
      List.drop_append_of_le_length (by omega)]
    exact ⟨hc, rfl⟩
  · right
    have hcond :
        ¬ MAX_HISTORY < (s.history.take (s.historyIndex + 1).toNat ++ [currSnap s]).length := by
      simp only [List.length_append, List.length_take, List.length_cons, List.length_nil,
        MAX_HISTORY]
      omega
    rw [if_neg hcond]
    exact ⟨by omega, rfl⟩

lemma recordSnapshot_history_length (s : DesignState) (hwf : Wf s) :
    ((recordSnapshot s).history.length : Int) = min (s.historyIndex + 2) 20 := by
  obtain ⟨h1, h2, h3⟩ := hwf
  unfold MAX_HISTORY at h3
  rcases recordSnapshot_cases s ⟨h1, h2, by unfold MAX_HISTORY; omega⟩ with
    ⟨hc, heq⟩ | ⟨hc, heq⟩ <;> rw [heq] <;>
    simp only [List.length_append, List.length_drop, List.length_take, List.length_cons,
      List.length_nil] <;> omega

lemma recordSnapshot_historyIndex (s : DesignState) (hwf : Wf s) :
    (recordSnapshot s).historyIndex = min (s.historyIndex + 1) 19 := by
  obtain ⟨h1, h2, h3⟩ := hwf
  unfold MAX_HISTORY at h3
  rcases recordSnapshot_cases s ⟨h1, h2, by unfold MAX_HISTORY; omega⟩ with
    ⟨hc, heq⟩ | ⟨hc, heq⟩ <;> rw [heq] <;> dsimp only <;> omega

lemma recordSnapshot_wf (s : DesignState) (hwf : Wf s) : Wf (recordSnapshot s) := by
  have hl := recordSnapshot_history_length s hwf
  have hi := recordSnapshot_historyIndex s hwf
  obtain ⟨h1, h2, h3⟩ := hwf
  unfold MAX_HISTORY at h3
  unfold Wf MAX_HISTORY
  omega

lemma getD_append_singleton_length (L : List HistoryState) (a : HistoryState) (n : Nat)
    (h : n = L.length) : (L ++ [a]).getD n default = a := by
  subst h
  simp [List.getD_eq_getElem?_getD]

lemma getD_append_singleton_lt (L : List HistoryState) (a : HistoryState) (n : Nat)
    (h : n < L.length) : (L ++ [a]).getD n default = L.getD n default := by
  simp [List.getD_eq_getElem?_getD, List.getElem?_append_left h]

/-- After recording, the cursor points at the newly recorded snapshot. -/
lemma recordSnapshot_getD_cursor (s : DesignState) (hwf : Wf s) :
    (recordSnapshot s).history.getD (recordSnapshot s).historyIndex.toNat default =
      currSnap s := by
  obtain ⟨h1, h2, h3⟩ := hwf
  unfold MAX_HISTORY at h3
  rcases recordSnapshot_cases s ⟨h1, h2, by unfold MAX_HISTORY; omega⟩ with
    ⟨hc, heq⟩ | ⟨hc, heq⟩ <;> rw [heq] <;> dsimp only
  · have hlen : s.history.length = 20 := by omega
    exact getD_append_singleton_length _ _ _ (by simp [List.length_drop, hlen]; omega)
  · exact getD_append_singleton_length _ _ _ (by simp [List.length_take]; omega)

/-- After recording, the entry just below the cursor is the entry the
cursor pointed at before recording. -/
lemma recordSnapshot_getD_prev (s : DesignState) (hwf : Wf s) (h0 : 0 ≤ s.historyIndex) :
    (recordSnapshot s).history.getD ((recordSnapshot s).historyIndex - 1).toNat default =
      s.history.getD s.historyIndex.toNat default := by
  obtain ⟨h1, h2, h3⟩ := hwf
  unfold MAX_HISTORY at h3
  rcases recordSnapshot_cases s ⟨h1, h2, by unfold MAX_HISTORY; omega⟩ with
    ⟨hc, heq⟩ | ⟨hc, heq⟩ <;> rw [heq] <;> dsimp only
  · have hlen : s.history.length = 20 := by omega
    rw [getD_append_singleton_lt _ _ _ (by simp [List.length_drop, hlen]; omega)]
    have h18 : (s.historyIndex - 1).toNat = 18 := by omega
    have h19 : s.historyIndex.toNat = 19 := by omega
    rw [h18, h19]
    simp [List.getD_eq_getElem?_getD, List.getElem?_drop]
  · rw [getD_append_singleton_lt _ _ _ (by simp [List.length_take]; omega)]
    have hsm : (s.historyIndex + 1 - 1).toNat = s.historyIndex.toNat := by omega
    rw [hsm]
    simp only [List.getD_eq_getElem?_getD]
    rw [List.getElem?_take_of_lt (by omega)]

lemma recordSnapshot_getLast (s : DesignState) (hwf : Wf s) :
    (recordSnapshot s).history.getLast? = some (currSnap s) := by
  obtain ⟨h1, h2, h3⟩ := hwf
  rcases recordSnapshot_cases s ⟨h1, h2, h3⟩ with ⟨hc, heq⟩ | ⟨hc, heq⟩ <;> rw [heq] <;>
    dsimp only <;> exact List.getLast?_concat _

/-- Recording on top of a state with the same history bookkeeping as `s`
realises the pushed-exactly-one-snapshot relation with respect to `s`. -/
lemma pushedOne_of_recordSnapshot (s s' : DesignState) (hh : s'.history = s.history)
    (hi : s'.historyIndex = s.historyIndex) (hwf : Wf s) :
    PushedOne s (recordSnapshot s') := by
  have hwf' : Wf s' := by
    unfold Wf at hwf ⊢
    rw [hh, hi]
    exact hwf
  have hl := recordSnapshot_history_length s' hwf'
  have hix := recordSnapshot_historyIndex s' hwf'
  refine ⟨?_, ?_, ?_⟩
  · rw [hl, hi]
    unfold MAX_HISTORY
    norm_num
  · rw [hl, hix, hi]
    omega
  · rw [recordSnapshot_getLast s' hwf', currSnap_recordSnapshot]

lemma undo_of_pos (s : DesignState) (h : 0 < s.historyIndex) :
    undo s =
      { s with
          historyIndex := s.historyIndex - 1
          layers := (s.history.getD (s.historyIndex - 1).toNat default).layers
          selectedLayerId :=
            (s.history.getD (s.historyIndex - 1).toNat default).selectedLayerId } := by
  unfold undo
  rw [if_pos h]

lemma undo_of_nonpos (s : DesignState) (h : s.historyIndex ≤ 0) : undo s = s := by
  unfold undo
  rw [if_neg (by omega)]

lemma redo_of_lt (s : DesignState) (h : s.historyIndex < (s.history.length : Int) - 1) :
    redo s =
      { s with
          historyIndex := s.historyIndex + 1
          layers := (s.history.getD (s.historyIndex + 1).toNat default).layers
          selectedLayerId :=
            (s.history.getD (s.historyIndex + 1).toNat default).selectedLayerId } := by
  unfold redo
  rw [if_pos h]

lemma redo_of_ge (s : DesignState) (h : (s.history.length : Int) - 1 ≤ s.historyIndex) :
    redo s = s := by
  unfold redo
  rw [if_neg (by omega)]

/-! Stable-rank and zIndex-normalization lemmas. -/

lemma countP_or_of_disjoint (p q : Int → Bool) (h : ∀ x, ¬(p x = true ∧ q x = true)) :
    ∀ l : List Int, l.countP (fun x => p x || q x) = l.countP p + l.countP q := by
  intro l
  induction l with
  | nil => simp
  | cons a t ih =>
    have ha := h a
    simp only [List.countP_cons, ih]
    cases hp : p a <;> cases hq : q a <;> simp [hp, hq] at ha ⊢ <;> omega

lemma countP_take_drop (p : Int → Bool) (zs : List Int) (i : Nat) :
    zs.countP p = (zs.take i).countP p + (zs.drop i).countP p := by
  conv_lhs => rw [← List.take_append_drop i zs]
  rw [List.countP_append]

lemma drop_getD_cons (zs : List Int) (i : Nat) (hi : i < zs.length) :
    zs.drop i = zs.getD i 0 :: zs.drop (i + 1) := by
  rw [List.drop_eq_getElem_cons hi]
  simp [List.getD_eq_getElem?_getD, List.getElem?_eq_getElem hi]

lemma countP_eq_getD_take_succ (zs : List Int) (i : Nat) (hi : i < zs.length) (z : Int)
    (hz : zs.getD i 0 = z) :
    (zs.take i).countP (fun w => decide (w = z)) + 1 ≤
      zs.countP (fun w => decide (w = z)) := by
  rw [countP_take_drop (fun w => decide (w = z)) zs i, drop_getD_cons zs i hi,
    List.countP_cons]
  simp only [hz, decide_eq_true_eq, if_true]
  omega

lemma stableRank_lt_of_getD_lt (zs : List Int) (i j : Nat) (hi : i < zs.length)
    (_hj : j < zs.length) (hz : zs.getD i 0 < zs.getD j 0) :
    stableRank zs i < stableRank zs j := by
  have hdisj : ∀ x : Int,
      ¬(decide (x < zs.getD i 0) = true ∧ decide (x = zs.getD i 0) = true) := by
    intro x
    simp only [decide_eq_true_eq]
    omega
  have hor := countP_or_of_disjoint _ _ hdisj zs
  have hmono : zs.countP (fun x => decide (x < zs.getD i 0) || decide (x = zs.getD i 0)) ≤
      zs.countP (fun w => decide (w < zs.getD j 0)) := by
    apply List.countP_mono_left
    intro x _ hx
    simp only [Bool.or_eq_true, decide_eq_true_eq] at hx ⊢
    omega
  have hself := countP_eq_getD_take_succ zs i hi (zs.getD i 0) rfl
  unfold stableRank
  omega

lemma stableRank_lt_of_getD_eq (zs : List Int) (i j : Nat) (hij : i < j) (hj : j < zs.length)
    (hz : zs.getD i 0 = zs.getD j 0) :
    stableRank zs i < stableRank zs j := by
  have hi : i < zs.length := Nat.lt_trans hij hj
  have htt : (zs.take j).take i = zs.take i := by
    rw [List.take_take]
    congr 1
    omega
  have hlen : i < (zs.take j).length := by
    rw [List.length_take]
    omega
  have hgd : (zs.take j).getD i 0 = zs.getD j 0 := by
    simp only [List.getD_eq_getElem?_getD]
    rw [List.getElem?_take_of_lt hij]
    have h2 := hz
    simp only [List.getD_eq_getElem?_getD] at h2
    exact h2
  have hstep : (zs.take i).countP (fun w => decide (w = zs.getD j 0)) + 1 ≤
      (zs.take j).countP (fun w => decide (w = zs.getD j 0)) := by
    have h2 := countP_eq_getD_take_succ (zs.take j) i hlen (zs.getD j 0) hgd
    rw [htt] at h2
    exact h2
  unfold stableRank
  rw [hz]
  omega

lemma stableRank_lt_length (zs : List Int) (i : Nat) (hi : i < zs.length) :
    stableRank zs i < zs.length := by
  have hdisj : ∀ x : Int,
      ¬(decide (x < zs.getD i 0) = true ∧ decide (x = zs.getD i 0) = true) := by
    intro x
    simp only [decide_eq_true_eq]
    omega
  have hor := countP_or_of_disjoint _ _ hdisj zs
  have hle : zs.countP (fun x => decide (x < zs.getD i 0) || decide (x = zs.getD i 0)) ≤
      zs.length := List.countP_le_length _
  have hself := countP_eq_getD_take_succ zs i hi (zs.getD i 0) rfl
  unfold stableRank
  omega

/-- The stable ranks of the positions 0, ..., n-1 are a permutation of
0, ..., n-1: a stable sort bijectively redistributes positions. -/
lemma map_stableRank_perm (zs : List Int) :
    ((List.range zs.length).map (stableRank zs)).Perm (List.range zs.length) := by
  have hnodup : ((List.range zs.length).map (stableRank zs)).Nodup := by
    refine List.Nodup.map_on ?_ (List.nodup_range _)
    intro x hx y hy hxy
    simp only [List.mem_range] at hx hy
    by_contra hne
    rcases lt_trichotomy (zs.getD x 0) (zs.getD y 0) with h | h | h
    · exact absurd hxy (Nat.ne_of_lt (stableRank_lt_of_getD_lt zs x y hx hy h))

    · rcases Nat.lt_or_ge x y with h2 | h2
      · exact absurd hxy (Nat.ne_of_lt (stableRank_lt_of_getD_eq zs x y h2 hy h))
      · have h3 : y < x := by omega
        exact absurd hxy.symm (Nat.ne_of_lt (stableRank_lt_of_getD_eq zs y x h3 hx h.symm))
    · exact absurd hxy.symm (Nat.ne_of_lt (stableRank_lt_of_getD_lt zs y x hy hx h))
  have hsub : ((List.range zs.length).map (stableRank zs)) ⊆ List.range zs.length := by
    intro x hx
    simp only [List.mem_map, List.mem_range] at hx ⊢
    obtain ⟨i, hi, rfl⟩ := hx
    exact stableRank_lt_length zs i hi
  exact (List.subperm_of_subset hnodup hsub).perm_of_length_le (by simp)

lemma normalizeZ_length (ls : List Layer) : (normalizeZ ls).length = ls.length := by
  simp [normalizeZ, List.enum_eq_enumFrom, List.enumFrom_length]

lemma enum_map_fst_range (ls : List Layer) : ls.enum.map Prod.fst = List.range ls.length := by
  rw [List.enum_eq_enumFrom, List.enumFrom_map_fst, ← List.range_eq_range']

lemma enum_map_snd_self (ls : List Layer) : ls.enum.map Prod.snd = ls := by
  rw [List.enum_eq_enumFrom, List.enumFrom_map_snd]

lemma normalizeZ_map_zIndex (ls : List Layer) :
    (normalizeZ ls).map Layer.zIndex =
      (List.range ls.length).map fun i => (stableRank (ls.map Layer.zIndex) i : Int) := by
  unfold normalizeZ
  rw [List.map_map]
  rw [show (Layer.zIndex ∘ fun p : Nat × Layer =>
      { p.2 with zIndex := (stableRank (ls.map Layer.zIndex) p.1 : Int) }) =
      (fun i => (stableRank (ls.map Layer.zIndex) i : Int)) ∘ Prod.fst from rfl]
  rw [← List.map_map, enum_map_fst_range]

lemma normalizeZ_map_id (ls : List Layer) :
    (normalizeZ ls).map Layer.id = ls.map Layer.id := by
  unfold normalizeZ
  rw [List.map_map]
  rw [show (Layer.id ∘ fun p : Nat × Layer =>
      { p.2 with zIndex := (stableRank (ls.map Layer.zIndex) p.1 : Int) }) =
      Layer.id ∘ Prod.snd from rfl]
  rw [← List.map_map, enum_map_snd_self]

/-- Normalization always yields a dense zero-based zIndex sequence. -/
lemma normalizeZ_dense (ls : List Layer) : denseZ (normalizeZ ls) := by
  unfold denseZ
  rw [normalizeZ_length, normalizeZ_map_zIndex]
  have h := (map_stableRank_perm (ls.map Layer.zIndex)).map (fun k : Nat => (k : Int))
  rw [List.map_map, Function.comp_def, List.length_map] at h
  exact h

lemma denseZ_of_perm (xs ys : List Layer)
    (hperm : (xs.map Layer.zIndex).Perm (ys.map Layer.zIndex)) (hd : denseZ ys) :
    denseZ xs := by
  unfold denseZ at hd ⊢
  have hlen : xs.length = ys.length := by
    have h2 := hperm.length_eq
    simpa using h2
  rw [hlen]
  exact hperm.trans hd

lemma getD_cons_set_perm (t : List Int) (k : Nat) (a : Int) (hk : k < t.length) :
    (t.getD k 0 :: t.set k a).Perm (a :: t) := by
  induction t generalizing k with
  | nil => simp at hk
  | cons b r ih =>
    cases k with
    | zero =>
      simp only [List.getD_cons_zero, List.set_cons_zero]
      exact List.Perm.swap a b r
    | succ k2 =>
      have h2 : k2 < r.length := by simpa using hk
      simp only [List.getD_cons_succ, List.set_cons_succ]
      exact (List.Perm.swap b (r.getD k2 0) (r.set k2 a)).trans
        ((List.Perm.cons b (ih k2 h2)).trans (List.Perm.swap a b r))

lemma set_set_perm_lt (zs : List Int) (i j : Nat) (hij : i < j) (hj : j < zs.length) :
    ((zs.set i (zs.getD j 0)).set j (zs.getD i 0)).Perm zs := by
  induction zs generalizing i j with
  | nil => simp at hj
  | cons b r ih =>
    cases i with
    | zero =>
      cases j with
      | zero => omega
      | succ k =>
        have hk : k < r.length := by simpa using hj
        simp only [List.getD_cons_succ, List.getD_cons_zero, List.set_cons_zero,
          List.set_cons_succ]
        exact getD_cons_set_perm r k b hk
    | succ i2 =>
      cases j with
      | zero => omega
      | succ j2 =>
        have hj2 : j2 < r.length := by simpa using hj
        simp only [List.getD_cons_succ, List.set_cons_succ]
        exact List.Perm.cons b (ih i2 j2 (by omega) hj2)

/-- Exchanging the values at two distinct positions is a permutation. -/
lemma set_set_perm (zs : List Int) (i j : Nat) (x y : Int) (hij : i ≠ j) (hi : i < zs.length)
    (hj : j < zs.length) (hx : zs.getD j 0 = x) (hy : zs.getD i 0 = y) :
    ((zs.set i x).set j y).Perm zs := by
  subst hx hy
  rcases Nat.lt_or_ge i j with h | h
  · exact set_set_perm_lt zs i j h hj
  · have h2 : j < i := by omega
    rw [List.set_comm _ _ _ hij]
    exact set_set_perm_lt zs j i (by omega) hi

/-! Layer-operation lemmas. -/

lemma addLayer_layers (l : Layer) (s : DesignState) :
    (addLayer l s).layers = normalizeZ (s.layers ++ [l]) := by
  unfold addLayer
  rw [recordSnapshot_layers]

lemma deleteLayer_layers (lid : String) (s : DesignState) :
    (deleteLayer lid s).layers =
      normalizeZ (s.layers.filter (fun m => decide (m.id ≠ lid))) := by
  unfold deleteLayer
  rw [recordSnapshot_layers]

lemma layers_getD_eq_getElem (ls : List Layer) (i : Nat) (hi : i < ls.length) :
    ls.getD i default = ls.get ⟨i, hi⟩ := by
  simp [List.getD_eq_getElem?_getD, List.getElem?_eq_getElem hi]

lemma map_zIndex_getD (ls : List Layer) (i : Nat) (hi : i < ls.length) :
    (ls.map Layer.zIndex).getD i 0 = (ls.getD i default).zIndex := by
  rw [layers_getD_eq_getElem ls i hi]
  simp [List.getD_eq_getElem?_getD, List.getElem?_map, List.getElem?_eq_getElem hi]

lemma denseZ_mergeSort_of_perm (X Y : List Layer)
    (h : (X.map Layer.zIndex).Perm (Y.map Layer.zIndex)) (hd : denseZ Y) :
    denseZ (X.mergeSort zLe) := by
  apply denseZ_of_perm _ Y ?_ hd
  exact ((List.mergeSort_perm X zLe).map Layer.zIndex).trans h

/-- The layer collection produced by `reorderLayer` always carries dense
zIndex values: the initial normalization produces them, and the optional
swap of two adjacent values followed by the re-sort only permutes them. -/
lemma reorderLayer_dense (lid : String) (dir : Direction) (s : DesignState) :
    denseZ (reorderLayer lid dir s).layers := by
  have hbase : denseZ (normalizeZ s.layers) := normalizeZ_dense s.layers
  simp only [reorderLayer]
  split
  · exact hbase
  next i heq =>
    rw [recordSnapshot_layers]
    rw [List.findIdx?_eq_some_iff_getElem] at heq
    obtain ⟨hi, hpi, -⟩ := heq
    simp only [decide_eq_true_eq] at hpi
    show denseZ _
    cases dir <;> dsimp only
    case forward =>
      split
      · split
        next j heqj =>
          rw [List.findIdx?_eq_some_iff_getElem] at heqj
          obtain ⟨hj, hpj, -⟩ := heqj
          simp only [decide_eq_true_eq] at hpj
          apply denseZ_mergeSort_of_perm _ (normalizeZ s.layers) ?_ hbase
          rw [List.map_set, List.map_set]
          dsimp only
          have hgi : ((normalizeZ s.layers).map Layer.zIndex).getD i 0 =
              ((normalizeZ s.layers).getD i default).zIndex :=
            map_zIndex_getD _ i hi
          have hgj : ((normalizeZ s.layers).map Layer.zIndex).getD j 0 =
              ((normalizeZ s.layers).getD j default).zIndex :=
            map_zIndex_getD _ j hj
          have hjz : ((normalizeZ s.layers).getD j default).zIndex =
              ((normalizeZ s.layers).getD i default).zIndex + 1 := by
            rw [layers_getD_eq_getElem _ j hj]
            simp only [List.get_eq_getElem]
            exact hpj
          apply set_set_perm _ i j _ _ ?_ (by simpa using hi) (by simpa using hj)
          · rw [hgj, hjz]
          · rw [hgi]
          · intro hij
            rw [hij] at hjz
            omega
        next heqj =>
          exact denseZ_mergeSort_of_perm _ _ (List.Perm.refl _) hbase
      · exact denseZ_mergeSort_of_perm _ _ (List.Perm.refl _) hbase
    case backward =>
      split
      · split
        next j heqj =>
          rw [List.findIdx?_eq_some_iff_getElem] at heqj
          obtain ⟨hj, hpj, -⟩ := heqj
          simp only [decide_eq_true_eq] at hpj
          apply denseZ_mergeSort_of_perm _ (normalizeZ s.layers) ?_ hbase
          rw [List.map_set, List.map_set]
          dsimp only
          have hgi : ((normalizeZ s.layers).map Layer.zIndex).getD i 0 =
              ((normalizeZ s.layers).getD i default).zIndex :=
            map_zIndex_getD _ i hi
          have hgj : ((normalizeZ s.layers).map Layer.zIndex).getD j 0 =
              ((normalizeZ s.layers).getD j default).zIndex :=
            map_zIndex_getD _ j hj
          have hjz : ((normalizeZ s.layers).getD j default).zIndex =
              ((normalizeZ s.layers).getD i default).zIndex - 1 := by
            rw [layers_getD_eq_getElem _ j hj]
            simp only [List.get_eq_getElem]
            exact hpj
          apply set_set_perm _ i j _ _ ?_ (by simpa using hi) (by simpa using hj)
          · rw [hgj, hjz]
          · rw [hgi]
          · intro hij
            rw [hij] at hjz
            omega
        next heqj =>
          exact denseZ_mergeSort_of_perm _ _ (List.Perm.refl _) hbase
      · exact denseZ_mergeSort_of_perm _ _ (List.Perm.refl _) hbase

lemma recordSnapshot_idx_last (s : DesignState) (hwf : Wf s) :
    (recordSnapshot s).historyIndex = ((recordSnapshot s).history.length : Int) - 1 := by
  have hl := recordSnapshot_history_length s hwf
  have hi := recordSnapshot_historyIndex s hwf
  obtain ⟨a, b, c⟩ := hwf
  unfold MAX_HISTORY at c
  omega

lemma recordSnapshot_idx_nonneg (s : DesignState) (hwf : Wf s) :
    0 ≤ (recordSnapshot s).historyIndex := by
  have hi := recordSnapshot_historyIndex s hwf
  obtain ⟨a, b, c⟩ := hwf
  omega

/-- Undo right after a recording steps back, and redo then returns to the
recorded snapshot, restoring the canvas that was recorded. -/
lemma redo_undo_of_record (x : DesignState) (hwfx : Wf x) (h0 : 0 ≤ x.historyIndex) :
    (redo (undo (recordSnapshot x))).layers = x.layers ∧
      (redo (undo (recordSnapshot x))).selectedLayerId = x.selectedLayerId := by
  have hidx := recordSnapshot_historyIndex x hwfx
  have hlast := recordSnapshot_idx_last x hwfx
  have hcur := recordSnapshot_getD_cursor x hwfx
  have hpos : 0 < (recordSnapshot x).historyIndex := by omega
  rw [undo_of_pos _ hpos]
  rw [redo_of_lt _ (by dsimp only; omega)]
  dsimp only
  have harith : (recordSnapshot x).historyIndex - 1 + 1 = (recordSnapshot x).historyIndex := by
    omega
  rw [harith, hcur]
  exact ⟨rfl, rfl⟩

lemma countP_lt_range (i : Nat) : ∀ n : Nat,
    (List.range n).countP (fun k => decide (k < i)) = min i n := by
  intro n
  induction n with
  | zero => simp
  | succ m ih =>
    rw [List.range_succ, List.countP_append, ih]
    by_cases hm : m < i <;> simp [List.countP_cons, hm] <;> omega

/-- On an already-normalized zIndex sequence 0, ..., n-1 every position is
its own stable rank. -/
lemma stableRank_castRange (n i : Nat) (hi : i < n) :
    stableRank ((List.range n).map fun k : Nat => (k : Int)) i = i := by
  unfold stableRank
  have hgd : ((List.range n).map fun k : Nat => (k : Int)).getD i 0 = (i : Int) := by
    rw [List.getD_eq_getElem?_getD, List.getElem?_map, List.getElem?_range hi]
    rfl
  rw [hgd, ← List.map_take, List.take_range]
  simp only [List.countP_map, Function.comp_def]
  have e1 : (fun k : Nat => decide ((k : Int) < (i : Int))) = fun k : Nat => decide (k < i) := by
    funext k
    rw [decide_eq_decide]
    exact Int.ofNat_lt
  have e2 : (List.range (min i n)).countP (fun k : Nat => decide ((k : Int) = (i : Int))) = 0 := by
    rw [List.countP_eq_zero]
    intro a ha
    simp only [List.mem_range] at ha
    simp only [decide_eq_true_eq]
    omega
  rw [e1, e2, countP_lt_range]
  omega

lemma normalizeZ_eq_self_of_range (ls : List Layer)
    (h : ls.map Layer.zIndex = (List.range ls.length).map fun k : Nat => (k : Int)) :
    normalizeZ ls = ls := by
  apply List.ext_getElem (normalizeZ_length ls)
  intro n h1 h2
  simp only [normalizeZ, List.getElem_map, List.getElem_enum]
  have hrank : stableRank (ls.map Layer.zIndex) n = n := by
    rw [h]
    exact stableRank_castRange ls.length n h2
  rw [hrank]
  have hzn : (ls.get ⟨n, h2⟩).zIndex = (n : Int) := by
    have h3 : (ls.map Layer.zIndex)[n]? =
        ((List.range ls.length).map fun k : Nat => (k : Int))[n]? := by rw [h]
    rw [List.getElem?_map, List.getElem?_map, List.getElem?_eq_getElem h2,
      List.getElem?_eq_getElem (by simpa using h2)] at h3
    simp only [Option.map_some', Option.some.injEq, List.getElem_range] at h3
    simpa using h3
  simp only [List.get_eq_getElem] at hzn
  rw [← hzn]

lemma pairwise_zLe_of_range (ls : List Layer)
    (h : ls.map Layer.zIndex = (List.range ls.length).map fun k : Nat => (k : Int)) :
    ls.Pairwise fun a b => zLe a b = true := by
  have hp : ((List.range ls.length).map fun k : Nat => (k : Int)).Pairwise (· ≤ ·) := by
    rw [List.pairwise_map]
    exact (List.pairwise_le_range _).imp fun hab => Int.ofNat_le.mpr hab
  have hzp : (ls.map Layer.zIndex).Pairwise (· ≤ ·) := by rw [h]; exact hp
  have h2 : ls.Pairwise fun a b => a.zIndex ≤ b.zIndex := List.pairwise_map.mp hzp
  exact h2.imp fun hab => by simpa [zLe] using hab

lemma mergeSort_eq_self_of_range (ls : List Layer)
    (h : ls.map Layer.zIndex = (List.range ls.length).map fun k : Nat => (k : Int)) :
    ls.mergeSort zLe = ls :=
  List.mergeSort_of_sorted (pairwise_zLe_of_range ls h)

lemma set_getD_self (zs : List Int) (i : Nat) (hi : i < zs.length) :
    zs.set i (zs.getD i 0) = zs := by
  apply List.ext_getElem (by simp)
  intro n h1 h2
  rw [List.getElem_set]
  split
  next heq =>
    subst heq
    simp [List.getD_eq_getElem?_getD, List.getElem?_eq_getElem hi]
  next => rfl

/-- With pairwise-distinct ids, the id of the layer at position `k` is
found at exactly position `k`. -/
lemma findIdx?_id_of_nodup (ls : List Layer) (hnd : (ls.map Layer.id).Nodup) (k : Nat)
    (hk : k < ls.length) :
    ls.findIdx? (fun m => decide (m.id = (ls.getD k default).id)) = some k := by
  rw [List.findIdx?_eq_some_iff_getElem]
  refine ⟨hk, by rw [layers_getD_eq_getElem ls k hk]; simp, ?_⟩
  intro j hj
  have hpw : ls.Pairwise fun a b => a.id ≠ b.id := by
    have := hnd
    rw [List.Nodup, List.pairwise_map] at this
    exact this
  have hne : (ls.get ⟨j, Nat.lt_trans hj hk⟩).id ≠ (ls.get ⟨k, hk⟩).id := by
    rw [List.pairwise_iff_get] at hpw
    exact hpw ⟨j, Nat.lt_trans hj hk⟩ ⟨k, hk⟩ hj
  simp only [layers_getD_eq_getElem ls k hk, List.get_eq_getElem, decide_eq_true_eq]
  simpa using hne

lemma findIdx?_isSome_of_mem_id (ls : List Layer) (x : String)
    (h : ∃ m ∈ ls, m.id = x) :
    ∃ i, ls.findIdx? (fun m => decide (m.id = x)) = some i := by
  obtain ⟨m, hm, hx⟩ := h
  exact ⟨_, List.findIdx?_eq_some_of_exists ⟨m, hm, by simp [hx]⟩⟩

lemma findIdx?_none_of_forall_id (ls : List Layer) (x : String)
    (h : ∀ m ∈ ls, m.id ≠ x) :
    ls.findIdx? (fun m => decide (m.id = x)) = none := by
  rw [List.findIdx?_eq_none_iff]
  intro m hm
  simp [h m hm]

lemma exists_mem_id_normalizeZ (s : DesignState) (x : String)
    (hex : ∃ m ∈ s.layers, m.id = x) : ∃ m ∈ normalizeZ s.layers, m.id = x := by
  obtain ⟨m, hm, hx⟩ := hex
  have hmem : m.id ∈ (normalizeZ s.layers).map Layer.id := by
    rw [normalizeZ_map_id]
    exact List.mem_map_of_mem Layer.id hm
  obtain ⟨m2, hm2, hid2⟩ := List.mem_map.mp hmem
  exact ⟨m2, hm2, by rw [hid2, hx]⟩

lemma forall_mem_id_normalizeZ (s : DesignState) (x : String)
    (hall : ∀ m ∈ s.layers, m.id ≠ x) : ∀ m ∈ normalizeZ s.layers, m.id ≠ x := by
  intro m hm
  have hmem : m.id ∈ (normalizeZ s.layers).map Layer.id := List.mem_map_of_mem Layer.id hm
  rw [normalizeZ_map_id] at hmem
  obtain ⟨m2, hm2, hid2⟩ := List.mem_map.mp hmem
  rw [← hid2]
  exact hall m2 hm2

/-- With an absent id, reorderLayer returns early: the normalization is
kept but nothing is recorded. -/
lemma reorderLayer_of_absent (lid : String) (dir : Direction) (s : DesignState)
    (hall : ∀ m ∈ s.layers, m.id ≠ lid) :
    reorderLayer lid dir s = { s with layers := normalizeZ s.layers } := by
  simp only [reorderLayer]
  rw [findIdx?_none_of_forall_id _ lid (forall_mem_id_normalizeZ s lid hall)]

/-- When the canvas is normalized (layer k has zIndex k), ids are pairwise
distinct and the given id is the topmost layer, reorderLayer forward is
the plain history recording: no swap happens and the re-sort is the
identity. -/
lemma reorderLayer_topmost_eq (s : DesignState) (lid : String)
    (hsorted : s.layers.map Layer.zIndex =
      (List.range s.layers.length).map fun k : Nat => (k : Int))
    (hnodup : (s.layers.map Layer.id).Nodup) (hne : s.layers ≠ [])
    (hid : (s.layers.getD (s.layers.length - 1) default).id = lid) :
    reorderLayer lid Direction.forward s = recordSnapshot s := by
  have hlen : 0 < s.layers.length := List.length_pos.mpr hne
  have hnz : normalizeZ s.layers = s.layers := normalizeZ_eq_self_of_range s.layers hsorted
  have hfi : s.layers.findIdx? (fun m => decide (m.id = lid)) =
      some (s.layers.length - 1) := by
    rw [← hid]
    exact findIdx?_id_of_nodup s.layers hnodup _ (by omega)
  have hzl : (s.layers.getD (s.layers.length - 1) default).zIndex =
      ((s.layers.length - 1 : Nat) : Int) := by
    rw [← map_zIndex_getD s.layers _ (by omega)]
    rw [hsorted, List.getD_eq_getElem?_getD, List.getElem?_map,
      List.getElem?_range (by omega)]
    rfl
  simp only [reorderLayer, hnz, hfi]
  rw [if_neg ?_]
  · rw [mergeSort_eq_self_of_range s.layers hsorted]
  · rw [hzl]
    omega

/-- Dual statement for the bottommost layer and backward. -/
lemma reorderLayer_bottommost_eq (s : DesignState) (lid : String)
    (hsorted : s.layers.map Layer.zIndex =
      (List.range s.layers.length).map fun k : Nat => (k : Int))
    (hne : s.layers ≠ []) (hid : (s.layers.getD 0 default).id = lid) :
    reorderLayer lid Direction.backward s = recordSnapshot s := by
  have hlen : 0 < s.layers.length := List.length_pos.mpr hne
  have hnz : normalizeZ s.layers = s.layers := normalizeZ_eq_self_of_range s.layers hsorted
  have hfi : s.layers.findIdx? (fun m => decide (m.id = lid)) = some 0 := by
    rw [List.findIdx?_eq_some_iff_getElem]
    refine ⟨hlen, ?_, ?_⟩
    · rw [← hid, layers_getD_eq_getElem s.layers 0 hlen]
      simp
    · intro j hj
      omega
  have hz0 : (s.layers.getD 0 default).zIndex = (0 : Int) := by
    rw [← map_zIndex_getD s.layers 0 hlen]
    rw [hsorted, List.getD_eq_getElem?_getD, List.getElem?_map, List.getElem?_range hlen]
    rfl
  simp only [reorderLayer, hnz, hfi]
  rw [if_neg ?_]
  · rw [mergeSort_eq_self_of_range s.layers hsorted]
  · rw [hz0]
    omega


lemma remoteUpdateLayer_history (l : Layer) (s : DesignState) :
    (remoteUpdateLayer l s).history = s.history ∧
      (remoteUpdateLayer l s).historyIndex = s.historyIndex := by
  unfold remoteUpdateLayer
  split <;> exact ⟨rfl, rfl⟩

/-! Claim theorems. -/

/-- C1: applying any remote-originated event (remote add, remote update,
remote delete, remote wholesale layer replacement) leaves the history stack
and the history cursor unchanged, and when undo was a no-op before a
remote-only update (cursor at most 0) it is still a no-op afterwards. -/
theorem spec_C1_remote_preserves_history (s : DesignState) (l : Layer) (lid : String)
    (ls : List Layer) :
    ((remoteAddLayer l s).history = s.history ∧
        (remoteAddLayer l s).historyIndex = s.historyIndex) ∧
      ((remoteUpdateLayer l s).history = s.history ∧
        (remoteUpdateLayer l s).historyIndex = s.historyIndex) ∧
      ((remoteDeleteLayer lid s).history = s.history ∧
        (remoteDeleteLayer lid s).historyIndex = s.historyIndex) ∧
      ((remoteUpdateLayers ls s).history = s.history ∧
        (remoteUpdateLayers ls s).historyIndex = s.historyIndex) ∧
      (s.historyIndex ≤ 0 →
        undo (remoteUpdateLayer l s) = remoteUpdateLayer l s ∧
          undo (remoteUpdateLayers ls s) = remoteUpdateLayers ls s) := by
  have hu := remoteUpdateLayer_history l s
  refine ⟨⟨rfl, rfl⟩, hu, ⟨rfl, rfl⟩, ⟨rfl, rfl⟩, fun h0 => ⟨?_, ?_⟩⟩
  · exact undo_of_nonpos _ (by rw [hu.2]; exact h0)
  · exact undo_of_nonpos _ h0

theorem spec_C1_witness :
    (remoteAddLayer (mkLayer "c" 7) exState).history = exState.history ∧
      undo (remoteUpdateLayers [] initialState) = remoteUpdateLayers [] initialState :=
  ⟨(spec_C1_remote_preserves_history exState (mkLayer "c" 7) "a" []).1.1,
    ((spec_C1_remote_preserves_history initialState (mkLayer "c" 7) "a" []).2.2.2.2
      (by decide)).2⟩

/-- C2: after a single application of addLayer, deleteLayer or reorderLayer
to any starting state, the zIndex values of the resulting layers are
exactly the dense set 0, ..., n-1 (n the resulting number of layers), with
no gaps and no duplicates. -/
theorem spec_C2_zIndex_dense (s : DesignState) (l : Layer) (lid : String) (dir : Direction) :
    denseZ (addLayer l s).layers ∧ denseZ (deleteLayer lid s).layers ∧
      denseZ (reorderLayer lid dir s).layers := by
  refine ⟨?_, ?_, reorderLayer_dense lid dir s⟩
  · rw [addLayer_layers]
    exact normalizeZ_dense _
  · rw [deleteLayer_layers]
    exact normalizeZ_dense _

/-- C5 counterexample: adding a layer whose id is already present does not
fail and is not rejected; the reducer appends a second layer with the
duplicate id (here id a occurs twice afterwards). -/
theorem spec_C5_counterexample :
    (addLayer (mkLayer "a" 5) exState).layers.countP (fun m => decide (m.id = "a")) = 2 ∧
      (addLayer (mkLayer "a" 5) exState).layers.length = 3 := by decide

/-- C5 amended: addLayer appends the given layer unconditionally; there is
no duplicate-id check and no DuplicateIdError, so the resulting id sequence
is always the old id sequence with the new id appended, even when that id
is already present. -/
theorem spec_C5_amended_addLayer_appends (s : DesignState) (l : Layer) :
    (addLayer l s).layers.map Layer.id = s.layers.map Layer.id ++ [l.id] ∧
      (addLayer l s).layers.length = s.layers.length + 1 := by
  constructor
  · rw [addLayer_layers, normalizeZ_map_id, List.map_append]
    rfl
  · rw [addLayer_layers, normalizeZ_length, List.length_append]
    rfl

/-- C7: a design-update event whose sending participant id equals the local
participant id is ignored entirely by the remote reconciler: the state is
returned unchanged. -/
theorem spec_C7_self_echo_suppression (localId : String) (ev : DesignUpdateEvent)
    (s : DesignState) (h : ev.userId = localId) : handleRemoteUpdate localId ev s = s := by
  unfold handleRemoteUpdate
  rw [if_pos h]

theorem spec_C7_witness :
    handleRemoteUpdate "u1"
      { userId := "u1", action := RemoteAction.add, layerId := none,
        layer := some (mkLayer "c" 0), layers := none } exState = exState :=
  spec_C7_self_echo_suppression "u1" _ exState rfl

/-- C9: the relay re-emits a design-update to exactly the members of the
room other than the sender, and every emitted payload carries the userId,
action, layerId, layer and layers fields of the incoming event unchanged
(the relay adds only a server timestamp). -/
theorem spec_C9_relay_fanout_verbatim (members : List String) (sender : String)
    (data : DesignUpdateData) (now : String) :
    (∀ p ∈ designUpdateBroadcast members sender data now,
        p.1 ∈ members ∧ p.1 ≠ sender ∧ p.2.userId = data.userId ∧
          p.2.action = data.action ∧ p.2.layerId = data.layerId ∧
          p.2.layer = data.layer ∧ p.2.layers = data.layers) ∧
      ∀ m ∈ members, m ≠ sender →
        (m, ({ userId := data.userId, action := data.action, layerId := data.layerId,
               layer := data.layer, layers := data.layers,
               timestamp := now } : RelayedUpdate)) ∈
          designUpdateBroadcast members sender data now := by
  constructor
  · intro p hp
    unfold designUpdateBroadcast at hp
    simp only [List.mem_map, List.mem_filter, decide_eq_true_eq] at hp
    obtain ⟨m, ⟨hm, hne⟩, rfl⟩ := hp
    exact ⟨hm, hne, rfl, rfl, rfl, rfl, rfl⟩
  · intro m hm hne
    unfold designUpdateBroadcast
    simp only [List.mem_map, List.mem_filter, decide_eq_true_eq]
    exact ⟨m, ⟨hm, hne⟩, rfl⟩

theorem spec_C9_witness :
    ("p2", ({ userId := "u1", action := RemoteAction.add, layerId := none, layer := none,
              layers := none, timestamp := "t0" } : RelayedUpdate)) ∈
      designUpdateBroadcast ["p1", "p2"] "p1"
        { designId := "d", userId := "u1", action := RemoteAction.add, layerId := none,
          layer := none, layers := none } "t0" :=
  (spec_C9_relay_fanout_verbatim ["p1", "p2"] "p1" _ "t0").2 "p2" (by decide) (by decide)

/-- C3: after recording s1 then s2, an undo followed by a redo restores the
canvas of s2; undo decrements the cursor and restores the snapshot at the
new cursor exactly when the cursor is positive, redo increments it and
restores that snapshot exactly when the cursor is below the last history
position, and each is a no-op at its boundary. -/
theorem spec_C3_history_law (s : DesignState) (h1 h2 : HistoryState) (hwf : Wf s) :
    ((redo (undo (recordState h2 (recordState h1 s)))).layers = h2.layers ∧
        (redo (undo (recordState h2 (recordState h1 s)))).selectedLayerId =
          h2.selectedLayerId) ∧
      (0 < s.historyIndex →
        (undo s).historyIndex = s.historyIndex - 1 ∧
          (undo s).layers = (s.history.getD (s.historyIndex - 1).toNat default).layers ∧
          (undo s).selectedLayerId =
            (s.history.getD (s.historyIndex - 1).toNat default).selectedLayerId) ∧
      (s.historyIndex ≤ 0 → undo s = s) ∧
      (s.historyIndex < (s.history.length : Int) - 1 →
        (redo s).historyIndex = s.historyIndex + 1 ∧
          (redo s).layers = (s.history.getD (s.historyIndex + 1).toNat default).layers ∧
          (redo s).selectedLayerId =
            (s.history.getD (s.historyIndex + 1).toNat default).selectedLayerId) ∧
      ((s.history.length : Int) - 1 ≤ s.historyIndex → redo s = s) := by
  refine ⟨?_, ?_, undo_of_nonpos s, ?_, redo_of_ge s⟩
  · have hwf1 : Wf { s with layers := h1.layers, selectedLayerId := h1.selectedLayerId } :=
      hwf
    have hwf2 : Wf { recordState h1 s with
        layers := h2.layers, selectedLayerId := h2.selectedLayerId } :=
      recordSnapshot_wf _ hwf1
    have hnn : 0 ≤ ({ recordState h1 s with
        layers := h2.layers, selectedLayerId := h2.selectedLayerId }).historyIndex :=
      recordSnapshot_idx_nonneg _ hwf1
    exact redo_undo_of_record
      { recordState h1 s with layers := h2.layers, selectedLayerId := h2.selectedLayerId }
      hwf2 hnn
  · intro h
    rw [undo_of_pos s h]
    exact ⟨rfl, rfl, rfl⟩
  · intro h
    rw [redo_of_lt s h]
    exact ⟨rfl, rfl, rfl⟩

theorem spec_C3_witness :
    (redo (undo (recordState { layers := [mkLayer "b" 1], selectedLayerId := none }
        (recordState { layers := [mkLayer "a" 0], selectedLayerId := none }
          exState)))).layers = [mkLayer "b" 1] :=
  ((spec_C3_history_law exState { layers := [mkLayer "a" 0], selectedLayerId := none }
    { layers := [mkLayer "b" 1], selectedLayerId := none } (by decide)).1).1

set_option maxRecDepth 100000 in
/-- C4: the history stack is a sliding window of capacity 20: recording
truncates after the cursor and appends, the cursor then sits on the newly
recorded entry (the last position), and when the window is full the oldest
entry is evicted instead of advancing the cursor.  Concretely, after 25
sequential local edits from the empty initial state the stack holds 20
snapshots, 19 undos reach the oldest retained snapshot (cursor 0) and a
further undo is a no-op. -/
theorem spec_C4_history_window :
    (∀ s : DesignState, Wf s →
      (recordSnapshot s).history.length ≤ MAX_HISTORY ∧
        (recordSnapshot s).historyIndex = ((recordSnapshot s).history.length : Int) - 1 ∧
        (recordSnapshot s).history.getD (recordSnapshot s).historyIndex.toNat default =
          currSnap s ∧
        (s.historyIndex < 19 →
          (recordSnapshot s).history =
            s.history.take (s.historyIndex + 1).toNat ++ [currSnap s]) ∧
        (s.historyIndex = 19 →
          (recordSnapshot s).history = s.history.drop 1 ++ [currSnap s])) ∧
      edits25.history.length = 20 ∧
      (undo^[19] edits25).historyIndex = 0 ∧
      undo (undo^[19] edits25) = undo^[19] edits25 ∧
      (undo^[19] edits25).layers = (edits25.history.getD 0 default).layers := by
  refine ⟨?_, by decide, by decide, by decide, by decide⟩
  intro s hwf
  refine ⟨(recordSnapshot_wf s hwf).2.2, recordSnapshot_idx_last s hwf,
    recordSnapshot_getD_cursor s hwf, ?_, ?_⟩
  · intro h
    rcases recordSnapshot_cases s hwf with ⟨hc, heq⟩ | ⟨hc, heq⟩
    · omega
    · rw [heq]
  · intro h
    rcases recordSnapshot_cases s hwf with ⟨hc, heq⟩ | ⟨hc, heq⟩
    · rw [heq]
    · omega

theorem spec_C4_witness :
    (recordSnapshot exState).history.length ≤ MAX_HISTORY ∧
      (recordSnapshot exState).historyIndex =
        ((recordSnapshot exState).history.length : Int) - 1 :=
  ⟨(spec_C4_history_window.1 exState (by decide)).1,
    (spec_C4_history_window.1 exState (by decide)).2.1⟩

/-- C6 counterexample: selectLayer is one of the listed operations but it
records no history snapshot; on a concrete state with one recorded
snapshot the history stays at length 1 instead of growing to 2. -/
theorem spec_C6_counterexample :
    (selectLayer (some "a") exState).history = exState.history ∧
      (selectLayer (some "a") exState).history.length ≠ exState.history.length + 1 :=
  ⟨rfl, by decide⟩

/-- C6 amended: addLayer and deleteLayer push exactly one snapshot on
every invocation; updateLayer, reorderLayer, renameLayer (with a non-empty
trimmed name), toggleLayerVisibility and toggleLayerLock push exactly one
snapshot when the target id is present and none otherwise; selectLayer
never pushes a snapshot. -/
theorem spec_C6_amended_one_snapshot_per_edit (s : DesignState) (l : Layer)
    (lid newName : String) (dir : Direction) (v : Option String) (hwf : Wf s) :
    PushedOne s (addLayer l s) ∧
      PushedOne s (deleteLayer lid s) ∧
      ((∃ m ∈ s.layers, m.id = l.id) → PushedOne s (updateLayer l s)) ∧
      ((∀ m ∈ s.layers, m.id ≠ l.id) → updateLayer l s = s) ∧
      ((∃ m ∈ s.layers, m.id = lid) → PushedOne s (reorderLayer lid dir s)) ∧
      ((∀ m ∈ s.layers, m.id ≠ lid) →
        (reorderLayer lid dir s).history = s.history ∧
          (reorderLayer lid dir s).historyIndex = s.historyIndex) ∧
      ((∃ m ∈ s.layers, m.id = lid) → newName.trim ≠ "" →
        PushedOne s (renameLayer lid newName s)) ∧
      ((∀ m ∈ s.layers, m.id ≠ lid) → renameLayer lid newName s = s) ∧
      (newName.trim = "" → renameLayer lid newName s = s) ∧
      ((∃ m ∈ s.layers, m.id = lid) → PushedOne s (toggleLayerVisibility lid s)) ∧
      ((∀ m ∈ s.layers, m.id ≠ lid) → toggleLayerVisibility lid s = s) ∧
      ((∃ m ∈ s.layers, m.id = lid) → PushedOne s (toggleLayerLock lid s)) ∧
      ((∀ m ∈ s.layers, m.id ≠ lid) → toggleLayerLock lid s = s) ∧
      ((selectLayer v s).history = s.history ∧
        (selectLayer v s).historyIndex = s.historyIndex) := by
  refine ⟨pushedOne_of_recordSnapshot s _ rfl rfl hwf,
    pushedOne_of_recordSnapshot s _ rfl rfl hwf, ?_, ?_, ?_, ?_, ?_, ?_, ?_, ?_, ?_, ?_, ?_,
    rfl, rfl⟩
  · intro hex
    obtain ⟨i, hfi⟩ := findIdx?_isSome_of_mem_id s.layers l.id hex
    unfold updateLayer
    rw [hfi]
    exact pushedOne_of_recordSnapshot s _ rfl rfl hwf
  · intro hall
    unfold updateLayer
    rw [findIdx?_none_of_forall_id s.layers l.id hall]
  · intro hex
    obtain ⟨i, hfi⟩ :=
      findIdx?_isSome_of_mem_id _ lid (exists_mem_id_normalizeZ s lid hex)
    simp only [reorderLayer]
    rw [hfi]
    exact pushedOne_of_recordSnapshot s _ rfl rfl hwf
  · intro hall
    rw [reorderLayer_of_absent lid dir s hall]
    exact ⟨rfl, rfl⟩
  · intro hex hne
    obtain ⟨i, hfi⟩ := findIdx?_isSome_of_mem_id s.layers lid hex
    unfold renameLayer
    rw [hfi]
    dsimp only
    rw [if_pos hne]
    exact pushedOne_of_recordSnapshot s _ rfl rfl hwf
  · intro hall
    unfold renameLayer
    rw [findIdx?_none_of_forall_id s.layers lid hall]
  · intro hname
    unfold renameLayer
    cases hfi : s.layers.findIdx? (fun m => decide (m.id = lid)) with
    | none => rfl
    | some i =>
      dsimp only
      rw [if_neg (by simp [hname])]
  · intro hex
    obtain ⟨i, hfi⟩ := findIdx?_isSome_of_mem_id s.layers lid hex
    unfold toggleLayerVisibility
    rw [hfi]
    exact pushedOne_of_recordSnapshot s _ rfl rfl hwf
  · intro hall
    unfold toggleLayerVisibility
    rw [findIdx?_none_of_forall_id s.layers lid hall]
  · intro hex
    obtain ⟨i, hfi⟩ := findIdx?_isSome_of_mem_id s.layers lid hex
    unfold toggleLayerLock
    rw [hfi]
    exact pushedOne_of_recordSnapshot s _ rfl rfl hwf
  · intro hall
    unfold toggleLayerLock
    rw [findIdx?_none_of_forall_id s.layers lid hall]

theorem spec_C6_witness :
    PushedOne exState (addLayer (mkLayer "c" 2) exState) ∧
      PushedOne exState (toggleLayerVisibility "a" exState) ∧
      toggleLayerLock "zz" exState = exState ∧
      (selectLayer (some "b") exState).history = exState.history := by
  obtain ⟨h1, h2, h3, h4, h5, h6, h7, h8, h9, h10, h11, h12, h13, h14⟩ :=
    spec_C6_amended_one_snapshot_per_edit exState (mkLayer "c" 2) "a" "n2"
      Direction.forward (some "b") (by decide)
  obtain ⟨g1, g2, g3, g4, g5, g6, g7, g8, g9, g10, g11, g12, g13, g14⟩ :=
    spec_C6_amended_one_snapshot_per_edit exState (mkLayer "c" 2) "zz" "n2"
      Direction.forward (some "b") (by decide)
  exact ⟨h1, h10 ⟨mkLayer "a" 0, by decide, rfl⟩, g13 (by decide), h14.1⟩

/-- C8 counterexample: updateLayer performs no zIndex normalization — on a
dense state with values 0 and 1, replacing the layer with id b by a copy
with zIndex 5 leaves the values 0 and 5, which is not the dense set. -/
theorem spec_C8_counterexample :
    (updateLayer (mkLayer "b" 5) exState).layers.map Layer.zIndex = [0, 5] ∧
      ¬ denseZ (updateLayer (mkLayer "b" 5) exState).layers := by decide

/-- C8 amended: updateLayer replaces the layer with the matching id in
place and does not renormalize zIndex, so the values stay dense exactly
when the replacement keeps the replaced zIndex; when the id is absent the
operation returns the state unchanged (it is total, hence cannot throw). -/
theorem spec_C8_amended_updateLayer_replaces (s : DesignState) (l : Layer) :
    ((∀ m ∈ s.layers, m.id ≠ l.id) → updateLayer l s = s) ∧
      ∀ i, s.layers.findIdx? (fun m => decide (m.id = l.id)) = some i →
        (updateLayer l s).layers = s.layers.set i l ∧
          (denseZ s.layers → l.zIndex = (s.layers.getD i default).zIndex →
            denseZ (updateLayer l s).layers) := by
  constructor
  · intro hall
    unfold updateLayer
    rw [findIdx?_none_of_forall_id s.layers l.id hall]
  · intro i hfi
    have hi : i < s.layers.length := by
      rw [List.findIdx?_eq_some_iff_getElem] at hfi
      exact hfi.1
    have hlay : (updateLayer l s).layers = s.layers.set i l := by
      unfold updateLayer
      rw [hfi, recordSnapshot_layers]
    refine ⟨hlay, ?_⟩
    intro hd hz
    unfold denseZ at hd ⊢
    rw [hlay]
    have hmap : (s.layers.set i l).map Layer.zIndex = s.layers.map Layer.zIndex := by
      rw [List.map_set, hz, ← map_zIndex_getD s.layers i hi]
      exact set_getD_self _ i (by simpa using hi)
    rw [hmap, List.length_set]
    exact hd

theorem spec_C8_witness :
    (updateLayer (mkLayer "b" 1) exState).layers =
        exState.layers.set 1 (mkLayer "b" 1) ∧
      denseZ (updateLayer (mkLayer "b" 1) exState).layers := by
  have h := (spec_C8_amended_updateLayer_replaces exState (mkLayer "b" 1)).2 1 (by decide)
  exact ⟨h.1, h.2 (by decide) (by decide)⟩

/-- C10: on a normalized canvas (layer k has zIndex k) with pairwise
distinct ids, a non-degenerate history whose cursor entry snapshots the
current canvas, reordering the topmost layer forward or the bottommost
backward leaves the layer collection unchanged yet still records a history
snapshot (when the window is not yet full the cursor advances by one), so
an immediate undo decrements the cursor and restores layers deep-equal to
the current ones; reorderLayer with an absent id records nothing (history
and cursor untouched). -/
theorem spec_C10_boundary_reorder (s : DesignState) (lid : String) (dir : Direction)
    (hwf : Wf s) (h0 : 0 ≤ s.historyIndex)
    (hsync : s.history.getD s.historyIndex.toNat default = currSnap s)
    (hsorted : s.layers.map Layer.zIndex =
      (List.range s.layers.length).map fun k : Nat => (k : Int))
    (hnodup : (s.layers.map Layer.id).Nodup) (hne : s.layers ≠ []) :
    ((s.layers.getD (s.layers.length - 1) default).id = lid →
      (reorderLayer lid Direction.forward s).layers = s.layers ∧
        PushedOne s (reorderLayer lid Direction.forward s) ∧
        (s.history.length < MAX_HISTORY →
          (reorderLayer lid Direction.forward s).historyIndex = s.historyIndex + 1) ∧
        (undo (reorderLayer lid Direction.forward s)).historyIndex =
          (reorderLayer lid Direction.forward s).historyIndex - 1 ∧
        (undo (reorderLayer lid Direction.forward s)).layers = s.layers) ∧
      ((s.layers.getD 0 default).id = lid →
        (reorderLayer lid Direction.backward s).layers = s.layers ∧
          PushedOne s (reorderLayer lid Direction.backward s) ∧
          (undo (reorderLayer lid Direction.backward s)).layers = s.layers) ∧
      ((∀ m ∈ s.layers, m.id ≠ lid) →
        (reorderLayer lid dir s).history = s.history ∧
          (reorderLayer lid dir s).historyIndex = s.historyIndex) := by
  have hpos : 0 < (recordSnapshot s).historyIndex := by
    have := recordSnapshot_historyIndex s hwf
    omega
  have hprev : (recordSnapshot s).history.getD
      ((recordSnapshot s).historyIndex - 1).toNat default =
      s.history.getD s.historyIndex.toNat default :=
    recordSnapshot_getD_prev s hwf h0
  refine ⟨?_, ?_, ?_⟩
  · intro hid
    rw [reorderLayer_topmost_eq s lid hsorted hnodup hne hid]
    refine ⟨recordSnapshot_layers s, pushedOne_of_recordSnapshot s s rfl rfl hwf, ?_, ?_, ?_⟩
    · intro hcap
      rw [recordSnapshot_historyIndex s hwf]
      obtain ⟨a, b, c⟩ := hwf
      unfold MAX_HISTORY at hcap
      omega
    · rw [undo_of_pos _ hpos]
    · rw [undo_of_pos _ hpos]
      show (((recordSnapshot s).history.getD
        ((recordSnapshot s).historyIndex - 1).toNat default)).layers = s.layers
      rw [hprev, hsync]
      rfl
  · intro hid
    rw [reorderLayer_bottommost_eq s lid hsorted hne hid]
    refine ⟨recordSnapshot_layers s, pushedOne_of_recordSnapshot s s rfl rfl hwf, ?_⟩
    rw [undo_of_pos _ hpos]
    show (((recordSnapshot s).history.getD
      ((recordSnapshot s).historyIndex - 1).toNat default)).layers = s.layers
    rw [hprev, hsync]
    rfl
  · intro hall
    rw [reorderLayer_of_absent lid dir s hall]
    exact ⟨rfl, rfl⟩

theorem spec_C10_witness :
    (reorderLayer "b" Direction.forward exState).layers = exState.layers ∧
      (undo (reorderLayer "b" Direction.forward exState)).layers = exState.layers := by
  have h := (spec_C10_boundary_reorder exState "b" Direction.forward (by decide) (by decide)
    (by decide) (by decide) (by decide) (by decide)).1 rfl
  exact ⟨h.1, h.2.2.2.2⟩

end CanvasSync
